import Mathlib

/-!
Verification of scripts/optimize_images.py.

The script is embedded shallowly: pixel dimensions are natural numbers,
file bytes are lists of naturals, and the filesystem together with the
Pillow library is modelled as an explicit environment (for each directory
entry, the content that a successful JPEG re-encode would produce, or the
exception text on failure).  Python int truncation of the nonnegative
float division h * max_size / w is modelled as exact floor division on
Nat.
-/

/-- Pixel dimensions of an in-memory image, as returned by img.size. -/
structure Img where
  w : Nat
  h : Nat
deriving DecidableEq

/-- Longest side of an image. -/
def longSide (d : Img) : Nat := max d.w d.h

/-- Shortest side of an image. -/
def shortSide (d : Img) : Nat := min d.w d.h

/-- GALLERY_MAX = 900 (line 17 of the script). -/
def GALLERY_MAX : Nat := 900

/-- HERO_MAX_WIDTH = 1200 (line 18); defined by the script but never
invoked, since the dispatcher unconditionally skips hero files. -/
def HERO_MAX_WIDTH : Nat := 1200

/-- JPEG_QUALITY = 85 (line 19). -/
def JPEG_QUALITY : Nat := 85

/-- Embedding of resize_to_max (lines 22 to 33).  If both dimensions are
at most max_size the image is returned unchanged; otherwise the longer
side becomes max_size and the shorter is int(short * max_size / long),
whose truncation of a nonnegative quotient is Nat floor division here.
Only dimensions are modelled; the resampling filter does not affect
them. -/
def resize_to_max (img : Img) (max_size : Nat) : Img :=
  if img.w ≤ max_size ∧ img.h ≤ max_size then img
  else if img.h ≤ img.w then
    { w := max_size, h := img.h * max_size / img.w }
  else
    { w := img.w * max_size / img.h, h := max_size }

lemma resize_id_of_le {d : Img} {m : Nat} (hw : d.w ≤ m) (hh : d.h ≤ m) :
    resize_to_max d m = d := by
  unfold resize_to_max
  rw [if_pos ⟨hw, hh⟩]

lemma resize_exceed_eq_wide {d : Img} {m : Nat} (hwh : d.h ≤ d.w) (hm : m < d.w) :
    resize_to_max d m = ⟨m, d.h * m / d.w⟩ := by
  unfold resize_to_max
  rw [if_neg (by omega), if_pos hwh]

lemma resize_exceed_eq_tall {d : Img} {m : Nat} (hwh : ¬ d.h ≤ d.w) (hm : m < d.h) :
    resize_to_max d m = ⟨d.w * m / d.h, m⟩ := by
  unfold resize_to_max
  rw [if_neg (by omega), if_neg hwh]

lemma div_le_of_num_le {s L m : Nat} (hsL : s ≤ L) (hL : 0 < L) : s * m / L ≤ m := by
  calc s * m / L ≤ L * m / L := Nat.div_le_div_right (Nat.mul_le_mul_right m hsL)
    _ = m := Nat.mul_div_cancel_left m hL

lemma resize_exceed_repr {d : Img} {m : Nat} (hgt : m < longSide d) :
    longSide (resize_to_max d m) = m ∧
    shortSide (resize_to_max d m) = shortSide d * m / longSide d := by
  by_cases hwh : d.h ≤ d.w
  · have hm : m < d.w := by unfold longSide at hgt; omega
    have hw0 : 0 < d.w := by omega
    have hle : d.h * m / d.w ≤ m := div_le_of_num_le hwh hw0
    rw [resize_exceed_eq_wide hwh hm]
    unfold longSide shortSide
    have hmaxd : max d.w d.h = d.w := max_eq_left hwh
    have hmind : min d.w d.h = d.h := min_eq_right hwh
    rw [hmaxd, hmind]
    exact ⟨max_eq_left hle, min_eq_right hle⟩
  · have hdw : d.w ≤ d.h := by omega
    have hm : m < d.h := by unfold longSide at hgt; omega
    have hh0 : 0 < d.h := by omega
    have hle : d.w * m / d.h ≤ m := div_le_of_num_le hdw hh0
    rw [resize_exceed_eq_tall hwh hm]
    unfold longSide shortSide
    have hmaxd : max d.w d.h = d.h := max_eq_right hdw
    have hmind : min d.w d.h = d.w := min_eq_left hdw
    rw [hmaxd, hmind]
    exact ⟨max_eq_right hle, min_eq_left hle⟩

lemma resize_dims_le (d : Img) (m : Nat) :
    (resize_to_max d m).w ≤ m ∧ (resize_to_max d m).h ≤ m := by
  by_cases hb : d.w ≤ m ∧ d.h ≤ m
  · rw [resize_id_of_le hb.1 hb.2]; exact hb
  · have hgt : m < longSide d := by unfold longSide; omega
    have hmax := (resize_exceed_repr hgt).1
    unfold longSide at hmax
    omega

/-- Claim C2: whenever at least one dimension exceeds the threshold, the
resized longer side equals exactly the threshold and the shorter side is
the aspect-ratio-exact value within one pixel of rounding (it is the
floor of short * threshold / long, stated here by the two cross-
multiplied bounds that pin it within one pixel of the exact ratio). -/
theorem resize_exceeding_hits_threshold (d : Img) (m : Nat)
    (hgt : m < d.w ∨ m < d.h) :
    longSide (resize_to_max d m) = m ∧
    shortSide (resize_to_max d m) * longSide d ≤ shortSide d * m ∧
    shortSide d * m < (shortSide (resize_to_max d m) + 1) * longSide d := by
  have hgt2 : m < longSide d := by unfold longSide; omega
  have hL : 0 < longSide d := by omega
  obtain ⟨h1, h2⟩ := resize_exceed_repr hgt2
  refine ⟨h1, ?_, ?_⟩
  · rw [h2]
    exact Nat.div_mul_le_self _ _
  · rw [h2, Nat.mul_comm (shortSide d * m / longSide d + 1) (longSide d)]
    exact Nat.lt_mul_div_succ (shortSide d * m) hL

/-- Witness for C2 at the 2000 x 1000 image of the section 8 scenario and
threshold 900: the resized image is 900 x 450. -/
theorem resize_exceeding_hits_threshold_witness :
    longSide (resize_to_max ⟨2000, 1000⟩ 900) = 900 ∧
    shortSide (resize_to_max ⟨2000, 1000⟩ 900) * longSide ⟨2000, 1000⟩ ≤
      shortSide ⟨2000, 1000⟩ * 900 ∧
    shortSide ⟨2000, 1000⟩ * 900 <
      (shortSide (resize_to_max ⟨2000, 1000⟩ 900) + 1) * longSide ⟨2000, 1000⟩ :=
  resize_exceeding_hits_threshold ⟨2000, 1000⟩ 900 (Or.inl (by decide))

/-- Claim C3: when both dimensions are at most the threshold the image is
returned unchanged; the resizer never upscales. -/
theorem resize_within_threshold_unchanged (d : Img) (m : Nat)
    (hw : d.w ≤ m) (hh : d.h ≤ m) : resize_to_max d m = d :=
  resize_id_of_le hw hh

/-- Witness for C3 at a 640 x 480 image and threshold 900. -/
theorem resize_within_threshold_unchanged_witness :
    resize_to_max ⟨640, 480⟩ 900 = ⟨640, 480⟩ :=
  resize_within_threshold_unchanged ⟨640, 480⟩ 900 (by decide) (by decide)

/-- Claim C4: applying the resizer twice with the same threshold is
idempotent on dimensions; the second application returns the first
application result unchanged. -/
theorem resize_idempotent_dims (d : Img) (m : Nat) :
    resize_to_max (resize_to_max d m) m = resize_to_max d m :=
  resize_id_of_le (resize_dims_le d m).1 (resize_dims_le d m).2

/-- Claim C9: when the longer side exceeds the threshold, the output
shorter side is exactly floor(short * threshold / long); in particular,
when the longer side exceeds short * threshold, the returned shorter
dimension is 0, so the resizer does not guarantee positive output
dimensions. -/
theorem resize_shorter_is_floor (d : Img) (m : Nat) (hgt : m < longSide d) :
    shortSide (resize_to_max d m) = shortSide d * m / longSide d ∧
    (shortSide d * m < longSide d → shortSide (resize_to_max d m) = 0) := by
  obtain ⟨h1, h2⟩ := resize_exceed_repr hgt
  refine ⟨h2, fun hlt => ?_⟩
  rw [h2]
  exact Nat.div_eq_of_lt hlt

/-- Witness for C9: a 100000 x 3 image at threshold 900 resizes to a
shorter side of 0 pixels. -/
theorem resize_shorter_is_floor_witness :
    shortSide (resize_to_max ⟨100000, 3⟩ 900) = 0 :=
  (resize_shorter_is_floor ⟨100000, 3⟩ 900 (by decide)).2 (by decide)

/-- Python str.lower; the filenames the script compares are ASCII, for
which Char.toLower agrees with Python lowering. -/
def lowerStr (s : String) : String := ⟨s.data.map Char.toLower⟩

/-- Python str.endswith for a single suffix. -/
def endsWithStr (s suffix : String) : Bool := List.isSuffixOf suffix.data s.data

/-- The hero-name test of line 70: low == hero-bread.png or
low == hero-bread.jpg. -/
def isHeroName (low : String) : Bool :=
  low == "hero-bread.png" || low == "hero-bread.jpg"

/-- The extension test of line 73: low.endswith on the pair of suffixes
.jpeg and .jpg. -/
def isJpegName (low : String) : Bool :=
  endsWithStr low ".jpeg" || endsWithStr low ".jpg"

/-- Result of attempting the Pillow open/convert/resize/save sequence of
optimize_jpeg (lines 36 to 42) on a file: the new byte content on
success, or the exception text on failure.  This is the environment
model of the imaging library and the filesystem write. -/
inductive Outcome where
  | ok (newContent : List Nat)
  | err (msg : String)
deriving DecidableEq

/-- A directory entry: its name, whether os.path.isfile holds for it,
its byte content (os.path.getsize is the length of that list), and the
environment-determined outcome optimize_jpeg would have on it. -/
structure FileState where
  name : String
  isFile : Bool
  content : List Nat
  outcome : Outcome
deriving DecidableEq

/-- One printed line of main.  perFile carries the two byte sizes that
determine the printed KB figures and the guarded percentage of lines 79
and 80; skipErr is the except-branch print of line 82; summary is the
final print of line 85 with the two accumulated totals; noDir is the
diagnostic of line 57 and carries the IMG_DIR path it mentions; header
is the banner of line 59. -/
inductive Line where
  | header (dir : String)
  | perFile (name : String) (sizeBefore sizeAfter : Nat)
  | skipErr (name : String) (msg : String)
  | summary (totalBefore totalAfter : Nat)
  | noDir (dir : String)
deriving DecidableEq

/-- Loop state of main: the two byte-count accumulators of lines 60 and
61, the lines printed so far, and the entries processed so far with
their final on-disk content. -/
structure RunAcc where
  total_before : Nat
  total_after : Nat
  out : List Line
  done : List FileState
deriving DecidableEq

/-- One iteration of the loop body of main (lines 62 to 82).  Non-files
are skipped.  For a regular file the pre-size is accumulated first
(line 68); then the hero names are skipped, .jpg and .jpeg names are
transformed via the environment outcome (success accumulates the post
size and prints the per-file line, failure prints the skip line and
leaves the file as it was), and all other names are skipped silently. -/
def stepFile (a : RunAcc) (f : FileState) : RunAcc :=
  if f.isFile = false then { a with done := a.done ++ [f] }
  else
    let size_before := f.content.length
    let tb := a.total_before + size_before
    let low := lowerStr f.name
    if isHeroName low then
      { a with total_before := tb, done := a.done ++ [f] }
    else if isJpegName low then
      match f.outcome with
      | .ok nc =>
          { total_before := tb
            total_after := a.total_after + nc.length
            out := a.out ++ [.perFile f.name size_before nc.length]
            done := a.done ++ [{ f with content := nc }] }
      | .err m =>
          { a with
            total_before := tb
            out := a.out ++ [.skipErr f.name m]
            done := a.done ++ [f] }
    else
      { a with total_before := tb, done := a.done ++ [f] }

/-- The target directory: whether os.path.isdir(IMG_DIR) holds, and the
os.listdir listing. -/
structure Dir where
  dirExists : Bool
  entries : List FileState
deriving DecidableEq

/-- Embedding of main (lines 55 to 85): returns the final on-disk state
of the listed entries together with the printed lines.  The imgDir
argument stands for the computed IMG_DIR path string.  The summary line
is printed exactly when the total_after accumulator is truthy, that is,
nonzero. -/
def runMain (imgDir : String) (d : Dir) : List FileState × List Line :=
  if d.dirExists = false then
    (d.entries, [.noDir imgDir])
  else
    let a := d.entries.foldl stepFile ⟨0, 0, [.header imgDir], []⟩
    if a.total_after ≠ 0 then
      (a.done, a.out ++ [.summary a.total_before a.total_after])
    else
      (a.done, a.out)

/-- Classification used throughout: a regular file that is not a hero
name, has a .jpg or .jpeg lower-cased name, and whose environment
outcome is a successful re-encode. -/
def wasTransformed (f : FileState) : Bool :=
  f.isFile && !isHeroName (lowerStr f.name) && isJpegName (lowerStr f.name) &&
    (match f.outcome with | .ok _ => true | .err _ => false)

/-- The final on-disk state of a single entry after one run. -/
def transformOne (f : FileState) : FileState :=
  if f.isFile = false then f
  else if isHeroName (lowerStr f.name) then f
  else if isJpegName (lowerStr f.name) then
    match f.outcome with
    | .ok nc => { f with content := nc }
    | .err _ => f
  else f

/-- Contribution of one entry to the total_before accumulator. -/
def beforeOf (f : FileState) : Nat :=
  if f.isFile = false then 0 else f.content.length

/-- Contribution of one entry to the total_after accumulator. -/
def afterOf (f : FileState) : Nat :=
  if f.isFile = false then 0
  else if isHeroName (lowerStr f.name) then 0
  else if isJpegName (lowerStr f.name) then
    match f.outcome with
    | .ok nc => nc.length
    | .err _ => 0
  else 0

/-- Lines printed by the loop body for one entry. -/
def linesOf (f : FileState) : List Line :=
  if f.isFile = false then []
  else if isHeroName (lowerStr f.name) then []
  else if isJpegName (lowerStr f.name) then
    match f.outcome with
    | .ok nc => [.perFile f.name f.content.length nc.length]
    | .err m => [.skipErr f.name m]
  else []

lemma stepFile_eq (a : RunAcc) (f : FileState) :
    stepFile a f =
      ⟨a.total_before + beforeOf f, a.total_after + afterOf f,
       a.out ++ linesOf f, a.done ++ [transformOne f]⟩ := by
  rcases f with ⟨name, isFile, content, outcome⟩
  cases isFile
  · simp [stepFile, beforeOf, afterOf, linesOf, transformOne]
  · cases hh : isHeroName (lowerStr name)
    · cases hj : isJpegName (lowerStr name)
      · simp [stepFile, beforeOf, afterOf, linesOf, transformOne, hh, hj]
      · cases outcome <;>
          simp [stepFile, beforeOf, afterOf, linesOf, transformOne, hh, hj]
    · simp [stepFile, beforeOf, afterOf, linesOf, transformOne, hh]

lemma foldl_stepFile (fs : List FileState) (a : RunAcc) :
    fs.foldl stepFile a =
      ⟨a.total_before + (fs.map beforeOf).sum,
       a.total_after + (fs.map afterOf).sum,
       a.out ++ (fs.map linesOf).flatten,
       a.done ++ fs.map transformOne⟩ := by
  induction fs generalizing a with
  | nil => simp
  | cons f fs ih =>
      rw [List.foldl_cons, stepFile_eq, ih]
      simp [Nat.add_assoc]

/-- Sum of the pre-sizes of all regular files in a listing. -/
def totalBeforeOf (fs : List FileState) : Nat := (fs.map beforeOf).sum

/-- Sum of the post-sizes of all successfully transformed files in a
listing. -/
def totalAfterOf (fs : List FileState) : Nat := (fs.map afterOf).sum

/-- All loop output for a listing, including the banner. -/
def allLines (imgDir : String) (fs : List FileState) : List Line :=
  Line.header imgDir :: (fs.map linesOf).flatten

lemma runMain_eq (p : String) (d : Dir) (hd : d.dirExists = true) :
    runMain p d =
      (d.entries.map transformOne,
       if totalAfterOf d.entries ≠ 0 then
         allLines p d.entries ++
           [.summary (totalBeforeOf d.entries) (totalAfterOf d.entries)]
       else allLines p d.entries) := by
  simp only [runMain, hd, foldl_stepFile, totalBeforeOf, totalAfterOf, allLines]
  simp
  split <;> rfl

/-- Whether a printed line is a per-file line (success print of line 80
or error-skip print of line 82) bearing the given filename. -/
def mentionsName (n : String) : Line → Bool
  | .perFile nm _ _ => nm == n
  | .skipErr nm _ => nm == n
  | _ => false

/-- Whether a printed line is the aggregate summary line of line 85. -/
def isSummaryLine : Line → Bool
  | .summary _ _ => true
  | _ => false

lemma transformOne_of_hero {f : FileState}
    (hh : isHeroName (lowerStr f.name) = true) : transformOne f = f := by
  unfold transformOne
  cases hf : f.isFile <;> simp [hf, hh]

lemma transformOne_of_skip {f : FileState}
    (hh : isHeroName (lowerStr f.name) = false)
    (hj : isJpegName (lowerStr f.name) = false) : transformOne f = f := by
  unfold transformOne
  cases hf : f.isFile <;> simp [hf, hh, hj]

lemma mem_of_getElem? {l : List FileState} {i : Nat} {x : FileState}
    (h : l[i]? = some x) : x ∈ l := by
  obtain ⟨hi, rfl⟩ := List.getElem?_eq_some.mp h
  exact List.getElem_mem hi

lemma mem_linesOf {l : Line} {f : FileState} (h : l ∈ linesOf f) :
    f.isFile = true ∧ isHeroName (lowerStr f.name) = false ∧
    isJpegName (lowerStr f.name) = true ∧
    ((∃ nc, f.outcome = .ok nc ∧ l = .perFile f.name f.content.length nc.length) ∨
     (∃ m, f.outcome = .err m ∧ l = .skipErr f.name m)) := by
  rcases f with ⟨name, isFile, content, outcome⟩
  cases isFile
  · simp [linesOf] at h
  · cases hh : isHeroName (lowerStr name)
    · cases hj : isJpegName (lowerStr name)
      · simp [linesOf, hh, hj] at h
      · cases outcome with
        | ok nc =>
            simp only [linesOf, hh, hj] at h
            simp at h
            subst h
            exact ⟨rfl, rfl, rfl, Or.inl ⟨nc, rfl, rfl⟩⟩
        | err m =>
            simp only [linesOf, hh, hj] at h
            simp at h
            subst h
            exact ⟨rfl, rfl, rfl, Or.inr ⟨m, rfl, rfl⟩⟩
    · simp [linesOf, hh] at h

lemma linesOf_no_summary {l : Line} {f : FileState} (h : l ∈ linesOf f) :
    isSummaryLine l = false := by
  rcases mem_linesOf h with ⟨-, -, -, hc | hc⟩ <;> rcases hc with ⟨x, -, rfl⟩ <;> rfl

lemma mem_allLines {p : String} {fs : List FileState} {l : Line}
    (hl : l ∈ allLines p fs) : l = Line.header p ∨ ∃ g ∈ fs, l ∈ linesOf g := by
  unfold allLines at hl
  rcases List.mem_cons.mp hl with rfl | hl2
  · exact Or.inl rfl
  · right
    rcases List.mem_flatten.mp hl2 with ⟨s, hs, hls⟩
    rcases List.mem_map.mp hs with ⟨g, hg, rfl⟩
    exact ⟨g, hg, hls⟩

lemma runMain_snd_eq (p : String) (d : Dir) (hd : d.dirExists = true) :
    (runMain p d).2 =
      (if totalAfterOf d.entries ≠ 0 then
        allLines p d.entries ++
          [.summary (totalBeforeOf d.entries) (totalAfterOf d.entries)]
      else allLines p d.entries) := by
  rw [runMain_eq p d hd]

lemma runMain_fst_eq (p : String) (d : Dir) (hd : d.dirExists = true) :
    (runMain p d).1 = d.entries.map transformOne := by
  rw [runMain_eq p d hd]

lemma mem_runMain_out {p : String} {d : Dir} {l : Line} (hd : d.dirExists = true)
    (hl : l ∈ (runMain p d).2) :
    l = Line.header p ∨ (∃ g ∈ d.entries, l ∈ linesOf g) ∨
      (l = Line.summary (totalBeforeOf d.entries) (totalAfterOf d.entries) ∧
       totalAfterOf d.entries ≠ 0) := by
  rw [runMain_snd_eq p d hd] at hl
  by_cases hz : totalAfterOf d.entries ≠ 0
  · rw [if_pos hz] at hl
    rcases List.mem_append.mp hl with hl | hl
    · rcases mem_allLines hl with h | h
      · exact Or.inl h
      · exact Or.inr (Or.inl h)
    · simp at hl
      exact Or.inr (Or.inr ⟨hl, hz⟩)
  · rw [if_neg hz] at hl
    rcases mem_allLines hl with h | h
    · exact Or.inl h
    · exact Or.inr (Or.inl h)

lemma summary_mem_runMain {p : String} {d : Dir} (hd : d.dirExists = true)
    (hz : totalAfterOf d.entries ≠ 0) :
    Line.summary (totalBeforeOf d.entries) (totalAfterOf d.entries) ∈
      (runMain p d).2 := by
  rw [runMain_snd_eq p d hd, if_pos hz]
  simp

/-- Claim C5: a file whose lower-cased name is the hero filename with a
.png or .jpg extension is never written; its entry, content included, is
identical before and after a run. -/
theorem hero_file_never_modified (p : String) (d : Dir) (i : Nat) (f : FileState)
    (hf : d.entries[i]? = some f)
    (hh : isHeroName (lowerStr f.name) = true) :
    (runMain p d).1[i]? = some f := by
  cases hd : d.dirExists
  · simp [runMain, hd, hf]
  · rw [runMain_fst_eq p d hd, List.getElem?_map, hf]
    simp [transformOne_of_hero hh]

/-- Concrete one-entry directory holding only a hero file, in mixed
case. -/
def heroDir : Dir :=
  ⟨true, [⟨"Hero-Bread.PNG", true, [7, 7], .err "never called"⟩]⟩

/-- Witness for C5: the mixed-case hero file of heroDir is returned
unchanged by the run. -/
theorem hero_file_never_modified_witness :
    (runMain "img" heroDir).1[0]? =
      some ⟨"Hero-Bread.PNG", true, [7, 7], .err "never called"⟩ :=
  hero_file_never_modified "img" heroDir 0
    ⟨"Hero-Bread.PNG", true, [7, 7], .err "never called"⟩ (by decide) (by decide)

/-- Claim C7: when the target directory does not exist, the run prints
exactly one diagnostic line carrying the expected directory path,
modifies nothing, and returns normally. -/
theorem missing_dir_noop (p : String) (d : Dir) (h : d.dirExists = false) :
    (runMain p d).1 = d.entries ∧ (runMain p d).2 = [Line.noDir p] := by
  simp [runMain, h]

/-- Concrete directory whose isdir check fails. -/
def ghostDir : Dir := ⟨false, [⟨"photo1.jpg", true, [1], .ok []⟩]⟩

/-- Witness for C7 on ghostDir. -/
theorem missing_dir_noop_witness :
    (runMain "img" ghostDir).1 = ghostDir.entries ∧
    (runMain "img" ghostDir).2 = [Line.noDir "img"] :=
  missing_dir_noop "img" ghostDir rfl

lemma wasTransformed_isFile {f : FileState} (h : wasTransformed f = true) :
    f.isFile = true := by
  unfold wasTransformed at h
  simp only [Bool.and_eq_true] at h
  exact h.1.1.1

lemma wasTransformed_of_afterOf_ne_zero {f : FileState} (h : afterOf f ≠ 0) :
    wasTransformed f = true := by
  rcases f with ⟨name, isFile, content, outcome⟩
  cases isFile
  · simp [afterOf] at h
  · cases hh : isHeroName (lowerStr name)
    · cases hj : isJpegName (lowerStr name)
      · simp [afterOf, hh, hj] at h
      · cases outcome with
        | ok nc => simp [wasTransformed, hh, hj]
        | err m => simp [afterOf, hh, hj] at h
    · simp [afterOf, hh] at h

lemma exists_afterOf_ne_zero {fs : List FileState} (h : totalAfterOf fs ≠ 0) :
    ∃ f ∈ fs, afterOf f ≠ 0 := by
  by_contra hno
  push_neg at hno
  apply h
  unfold totalAfterOf
  refine List.sum_eq_zero ?_
  intro x hx
  rcases List.mem_map.mp hx with ⟨g, hg, rfl⟩
  exact hno g hg

lemma beforeOf_le_totalBefore {fs : List FileState} {f : FileState} (hf : f ∈ fs) :
    beforeOf f ≤ totalBeforeOf fs :=
  List.single_le_sum (fun x _ => Nat.zero_le x) _ (List.mem_map_of_mem beforeOf hf)

/-- Claim C6: a regular file whose lower-cased name is neither the hero
filename nor carries a .jpg or .jpeg suffix is returned unchanged by a
run, and no per-file line (success or error skip) for its name is ever
printed.  Directory listings carry pairwise distinct names, stated as
the Nodup hypothesis. -/
theorem unrecognized_file_untouched_unlogged (p : String) (d : Dir) (i : Nat)
    (f : FileState)
    (hnd : (d.entries.map FileState.name).Nodup)
    (hf : d.entries[i]? = some f)
    (_hreg : f.isFile = true)
    (hh : isHeroName (lowerStr f.name) = false)
    (hj : isJpegName (lowerStr f.name) = false) :
    (runMain p d).1[i]? = some f ∧
    (runMain p d).2.all (fun l => !mentionsName f.name l) = true := by
  cases hd : d.dirExists
  · constructor
    · simp [runMain, hd, hf]
    · have h2 : (runMain p d).2 = [Line.noDir p] := by simp [runMain, hd]
      rw [h2]
      simp [mentionsName]
  · constructor
    · rw [runMain_fst_eq p d hd, List.getElem?_map, hf]
      simp [transformOne_of_skip hh hj]
    · rw [List.all_eq_true]
      intro l hl
      rcases mem_runMain_out hd hl with rfl | ⟨g, hg, hlg⟩ | ⟨rfl, -⟩
      · simp [mentionsName]
      · rcases mem_linesOf hlg with ⟨hgFile, hgHero, hgJpeg, hshape⟩
        have hne : g.name ≠ f.name := by
          intro hEq
          have hgf : g = f :=
            List.inj_on_of_nodup_map hnd hg (mem_of_getElem? hf) hEq
          rw [hgf] at hgJpeg
          rw [hgJpeg] at hj
          exact Bool.true_eq_false.mp hj
        rcases hshape with ⟨nc, -, rfl⟩ | ⟨m, -, rfl⟩ <;>
          simp [mentionsName, hne]
      · simp [mentionsName]

/-- Concrete directory with one transformable jpg and one text file; the
run transforms a.jpg from three bytes to one and leaves notes.txt
alone, so the totals are 4 bytes before and 1 byte after. -/
def smallRunDir : Dir :=
  ⟨true, [⟨"a.jpg", true, [3, 1, 4], .ok [2]⟩,
          ⟨"notes.txt", true, [5], .err "unused"⟩]⟩

/-- Witness for C6: notes.txt of smallRunDir is unchanged and never
named in the output. -/
theorem unrecognized_file_untouched_unlogged_witness :
    (runMain "img" smallRunDir).1[1]? =
      some ⟨"notes.txt", true, [5], .err "unused"⟩ ∧
    (runMain "img" smallRunDir).2.all
      (fun l => !mentionsName "notes.txt" l) = true :=
  unrecognized_file_untouched_unlogged "img" smallRunDir 1
    ⟨"notes.txt", true, [5], .err "unused"⟩
    (by decide) (by decide) rfl (by decide) (by decide)

/-- Successful transforms yield an ok outcome whose content length is
their post-size. -/
lemma afterOf_of_wasTransformed {f : FileState} (h : wasTransformed f = true) :
    ∃ nc, f.outcome = Outcome.ok nc ∧ afterOf f = nc.length := by
  rcases f with ⟨name, isFile, content, outcome⟩
  cases isFile
  · simp [wasTransformed] at h
  · cases hh : isHeroName (lowerStr name)
    · cases hj : isJpegName (lowerStr name)
      · simp [wasTransformed, hh, hj] at h
      · cases outcome with
        | ok nc => exact ⟨nc, rfl, by simp [afterOf, hh, hj]⟩
        | err m => simp [wasTransformed, hh, hj] at h
    · simp [wasTransformed, hh] at h

lemma afterOf_le_totalAfter {fs : List FileState} {f : FileState} (hf : f ∈ fs) :
    afterOf f ≤ totalAfterOf fs :=
  List.single_le_sum (fun x _ => Nat.zero_le x) _ (List.mem_map_of_mem afterOf hf)

/-- Claim C8: after the loop, the aggregate summary line is printed if
and only if at least one file was successfully transformed during the
run; when no file was transformed, nothing further is printed.  The
hsave hypothesis records that a Pillow JPEG save that succeeds always
writes a nonempty file, which every realizable environment satisfies;
without it the truthiness test of line 83 could also suppress the
summary after a transform whose output were empty. -/
theorem summary_iff_any_transformed (p : String) (d : Dir)
    (hd : d.dirExists = true)
    (hsave : ∀ f ∈ d.entries, ∀ nc, f.outcome = Outcome.ok nc → nc ≠ []) :
    (runMain p d).2.any isSummaryLine = true ↔
      ∃ f ∈ d.entries, wasTransformed f = true := by
  constructor
  · intro hany
    rcases List.any_eq_true.mp hany with ⟨l, hl, hsl⟩
    rcases mem_runMain_out hd hl with rfl | ⟨g, hg, hlg⟩ | ⟨rfl, hz⟩
    · simp [isSummaryLine] at hsl
    · rw [linesOf_no_summary hlg] at hsl
      exact absurd hsl (by simp)
    · obtain ⟨g, hg, hga⟩ := exists_afterOf_ne_zero hz
      exact ⟨g, hg, wasTransformed_of_afterOf_ne_zero hga⟩
  · rintro ⟨f, hf, hwt⟩
    obtain ⟨nc, hok, hlen⟩ := afterOf_of_wasTransformed hwt
    have hnc : nc ≠ [] := hsave f hf nc hok
    have hfa : afterOf f ≠ 0 := by
      rw [hlen]
      intro h0
      exact hnc (List.length_eq_zero.mp h0)
    have hle := afterOf_le_totalAfter hf
    have hz : totalAfterOf d.entries ≠ 0 := by omega
    refine List.any_eq_true.mpr ?_
    exact ⟨Line.summary (totalBeforeOf d.entries) (totalAfterOf d.entries),
      summary_mem_runMain hd hz, rfl⟩

/-- Witness for C8 on smallRunDir, whose a.jpg is transformed: the
summary line is printed. -/
theorem summary_iff_any_transformed_witness :
    (runMain "img" smallRunDir).2.any isSummaryLine = true :=
  (summary_iff_any_transformed "img" smallRunDir rfl (by
    intro f hf nc hok
    simp only [smallRunDir] at hf
    rcases List.mem_cons.mp hf with rfl | hf
    · injection hok with h
      subst h
      simp
    · rcases List.mem_cons.mp hf with rfl | hf
      · simp at hok
      · simp at hf)).mpr (by decide)

/-- Claim C10: whenever the summary branch of line 83 is taken, the
divisor total_before of the unguarded division of line 84 is nonzero,
provided every successfully transformed file had a positive byte size
before the transform. -/
theorem summary_denominator_positive (p : String) (d : Dir) (tb ta : Nat)
    (hpos : ∀ f ∈ d.entries, wasTransformed f = true → 0 < f.content.length)
    (hmem : Line.summary tb ta ∈ (runMain p d).2) :
    0 < tb := by
  cases hd : d.dirExists
  · have h2 : (runMain p d).2 = [Line.noDir p] := by simp [runMain, hd]
    rw [h2] at hmem
    simp at hmem
  · rcases mem_runMain_out hd hmem with h | ⟨g, hg, hlg⟩ | ⟨heq, hz⟩
    · simp at h
    · exact absurd (linesOf_no_summary hlg) (by simp [isSummaryLine])
    · have htb : tb = totalBeforeOf d.entries := by
        injection heq
      obtain ⟨g, hg, hga⟩ := exists_afterOf_ne_zero hz
      have hwt := wasTransformed_of_afterOf_ne_zero hga
      have hlen := hpos g hg hwt
      have hbg : beforeOf g = g.content.length := by
        unfold beforeOf
        rw [wasTransformed_isFile hwt]
        simp
      have hle := beforeOf_le_totalBefore hg
      omega

/-- Witness for C10 on smallRunDir: the printed summary divides by a
total_before of 4. -/
theorem summary_denominator_positive_witness : 0 < (4 : Nat) :=
  summary_denominator_positive "img" smallRunDir 4 1 (by decide) (by decide)

/-- File content of n zero bytes; kept folded so that proofs handle its
length symbolically. -/
def bytes (n : Nat) : List Nat := List.replicate n 0

lemma bytes_length (n : Nat) : (bytes n).length = n := by
  unfold bytes
  exact List.length_replicate n 0

/-- The post-transform bytes of photo1.JPG in the section 8 scenario. -/
def photo1After : List Nat := bytes 120000

/-- The section 8 scenario: photo1.JPG of 500000 bytes, which the
environment re-encodes to 120000 bytes, and hero-bread.png of 800000
bytes, whose outcome is irrelevant because the dispatcher never invokes
the transform on it. -/
def scenario8 : Dir :=
  ⟨true, [⟨"photo1.JPG", true, bytes 500000, .ok photo1After⟩,
          ⟨"hero-bread.png", true, bytes 800000, .err "never invoked"⟩]⟩

/-- Counterexample to claim C1 as stated: in the section 8 scenario the
printed summary totals are 1300000 before and 120000 after, because the
skipped hero file contributed its 800000 pre-size bytes to total_before
on line 68 before the hero check of line 70 skipped it; the summary
percentage is therefore not computed from the sizes of photo1.JPG
alone, whose pre-size is 500000. -/
theorem totals_include_skipped_hero_scenario8 :
    (runMain "img" scenario8).2 =
      [Line.header "img", Line.perFile "photo1.JPG" 500000 120000,
       Line.summary 1300000 120000] ∧ (1300000 : Nat) ≠ 500000 := by
  have ha : isHeroName (lowerStr "photo1.JPG") = false := by decide
  have hb : isJpegName (lowerStr "photo1.JPG") = true := by decide
  have hc : isHeroName (lowerStr "hero-bread.png") = true := by decide
  refine ⟨?_, by decide⟩
  rw [runMain_snd_eq "img" scenario8 rfl]
  have hafter : totalAfterOf scenario8.entries = 120000 := by
    simp [totalAfterOf, scenario8, afterOf, ha, hb, hc, photo1After, bytes_length]
  have hbefore : totalBeforeOf scenario8.entries = 1300000 := by
    simp [totalBeforeOf, scenario8, beforeOf, bytes_length]
  have hlines : allLines "img" scenario8.entries =
      [Line.header "img", Line.perFile "photo1.JPG" 500000 120000] := by
    simp [allLines, scenario8, linesOf, ha, hb, hc, photo1After, bytes_length]
  rw [hafter, hbefore, hlines]
  simp

/-- Claim C1 amended: any printed summary line carries exactly the sum
of the pre-sizes of all regular files in the listing, skipped ones
included, as its total-before, and the sum of the post-sizes of the
successfully transformed files as its total-after; a skipped file is
excluded from total_after only, not from total_before. -/
theorem summary_totals_from_all_regular_files (p : String) (d : Dir)
    (tb ta : Nat) (hmem : Line.summary tb ta ∈ (runMain p d).2) :
    tb = totalBeforeOf d.entries ∧ ta = totalAfterOf d.entries := by
  cases hd : d.dirExists
  · have h2 : (runMain p d).2 = [Line.noDir p] := by simp [runMain, hd]
    rw [h2] at hmem
    simp at hmem
  · rcases mem_runMain_out hd hmem with h | ⟨g, hg, hlg⟩ | ⟨heq, hz⟩
    · simp at h
    · exact absurd (linesOf_no_summary hlg) (by simp [isSummaryLine])
    · refine ⟨?_, ?_⟩ <;> injection heq

/-- Witness for the amended C1 on smallRunDir: the printed summary totals
are 4 bytes before (the jpg plus the skipped text file) and 1 byte
after (the transformed jpg alone). -/
theorem summary_totals_from_all_regular_files_witness :
    (4 : Nat) = totalBeforeOf smallRunDir.entries ∧
    (1 : Nat) = totalAfterOf smallRunDir.entries :=
  summary_totals_from_all_regular_files "img" smallRunDir 4 1 (by decide)
